import Mathlib

/-!
Verification of the Notional Exposure Aggregation Engine of
`nickcoast/notional_claude` (`src/app.py`, `src/tws_simplified.py`).

The engine is shallowly embedded over `ℚ`:

* `Ticker` models an `ib_insync` ticker read (`QuoteSnapshot` of the spec):
  each price field is an `Option ℚ`, where `none` models an absent reading
  (the code's `is None` branch of `underlying_price is None or
  underlying_price <= 0`); `modelGreeks` is present exactly when a model
  computation succeeded (`ticker.modelGreeks` truthy, also after the
  implied-volatility recomputation attempt).
* `resolveUnderlyingPrice` is the fallback chain of `app.py` lines 197-212
  (identical in `tws_simplified.py` lines 171-184).  The returned `Bool`
  records that the last-resort branch ran, i.e. that the code printed its
  "using avg cost" / "using 100 as placeholder" warning.
* `resolveDelta` is the delta fallback of `app.py` lines 239-261;
  `resolveGreeks` is the delta/gamma resolution of `app.py` lines 405-428.
* `processPosition` / `aggregate` are the per-position loop of `app.py`
  lines 181-271 building `positions_by_underlying`: one aggregation pass is
  a fold over the list of positions, each paired with the ticker the loop
  read for its underlying contract and (for options) for the option
  contract itself.
* `notionalOf` / `totalNotionalPositionValue` are the table loop of
  `app.py` lines 279-295, and `leverageRatios` is the metrics computation
  of `app.py` lines 303-308.
-/

namespace NotionalEngine

/-- `contract.secType` of the source: `'STK'` or `'OPT'`. -/
inductive SecType where
  | STK
  | OPT
deriving DecidableEq, Repr

/-- `contract.right` of the source: `'C'` or `'P'`. -/
inductive OptRight where
  | C
  | P
deriving DecidableEq, Repr

/-- The fields of an `ib_insync` contract read by the engine, plus the
declared contract multiplier (present on the contract object but never read
by the aggregation code). -/
structure Contract where
  symbol : String
  secType : SecType
  strike : ℚ
  right : OptRight
  multiplier : ℚ
deriving DecidableEq, Repr

/-- A held position: `pos.contract`, `pos.position`, `pos.avgCost`. -/
structure PositionRec where
  contract : Contract
  position : ℚ
  avgCost : ℚ
deriving DecidableEq, Repr

/-- A model-computed greek pair (`ticker.modelGreeks`). -/
structure Greeks where
  delta : ℚ
  gamma : ℚ
deriving DecidableEq, Repr

/-- A ticker read (`QuoteSnapshot`): `marketPrice` is what
`ticker.marketPrice()` returned, `last`, `bid`, `ask` the raw fields, and
`modelGreeks` the model greeks when available.  `none` models an absent
reading. -/
structure Ticker where
  marketPrice : Option ℚ
  last : Option ℚ
  bid : Option ℚ
  ask : Option ℚ
  modelGreeks : Option Greeks
deriving DecidableEq, Repr

/-- The test `not (p is None or p <= 0)` applied to an optional price. -/
def usable : Option ℚ → Bool
  | none => false
  | some x => decide (0 < x)

/-- `(ticker.ask + ticker.bid) / 2 if ticker.ask and ticker.bid else None`:
the mid quote, computed only when both fields are present and truthy
(non-zero). -/
def midQuote (t : Ticker) : Option ℚ :=
  match t.ask, t.bid with
  | some a, some b => if a ≠ 0 ∧ b ≠ 0 then some ((a + b) / 2) else none
  | _, _ => none

/-- The underlying-price fallback chain of `app.py` lines 197-212: market
price, then last, then mid quote, each accepted only if present and
strictly positive; otherwise `pos.avgCost` for a stock position and the
placeholder `100` for an option position.  The `Bool` is `true` exactly
when one of the two last-resort branches ran (the code prints a warning
there and nowhere else). -/
def resolveUnderlyingPrice (t : Ticker) (pos : PositionRec) : ℚ × Bool :=
  if usable t.marketPrice then (t.marketPrice.getD 0, false)
  else if usable t.last then (t.last.getD 0, false)
  else if usable (midQuote t) then ((midQuote t).getD 0, false)
  else if pos.contract.secType = SecType.STK then (pos.avgCost, true)
  else (100, true)

/-- The delta resolution of `app.py` lines 239-261: the model delta when
model greeks are available, otherwise the moneyness heuristic. -/
def resolveDelta (ot : Ticker) (right : OptRight) (strike up : ℚ) : ℚ :=
  match ot.modelGreeks with
  | some g => g.delta
  | none =>
    match right with
    | OptRight.C => if up > strike then 7/10 else 3/10
    | OptRight.P => if up < strike then -(7/10) else -(3/10)

/-- The delta/gamma resolution of `app.py` lines 405-428 (options table):
model greeks when available, otherwise the moneyness heuristic with the
fixed default gamma `0.01`. -/
def resolveGreeks (t : Ticker) (right : OptRight) (strike stockPrice : ℚ) :
    ℚ × ℚ :=
  match t.modelGreeks with
  | some g => (g.delta, g.gamma)
  | none =>
    match right with
    | OptRight.C => (if stockPrice > strike then 7/10 else 3/10, 1/100)
    | OptRight.P => (if stockPrice < strike then -(7/10) else -(3/10), 1/100)

/-- One iteration's input to the aggregation loop: the position together
with the ticker the loop read for its underlying contract (the position's
own contract for a stock, the synthesized `Stock(symbol)` for an option)
and, for an option position, the ticker read for the option contract. -/
structure PosInput where
  pos : PositionRec
  undTicker : Ticker
  optTicker : Ticker
deriving DecidableEq, Repr

def symOf (q : PosInput) : String := q.pos.contract.symbol

/-- The underlying price the loop iteration for `q` resolves and uses. -/
def resolvedPrice (q : PosInput) : ℚ :=
  (resolveUnderlyingPrice q.undTicker q.pos).1

/-- `option_price = option_ticker.marketPrice()`: the raw option market
price, used unguarded by the code; an absent reading is modelled as `0`
(a non-positive value). -/
def optPriceOf (q : PosInput) : ℚ := q.optTicker.marketPrice.getD 0

/-- The delta the loop iteration for `q` resolves, using the option's own
ticker and the iteration's own resolved underlying price. -/
def deltaOf (q : PosInput) : ℚ :=
  resolveDelta q.optTicker q.pos.contract.right q.pos.contract.strike
    (resolvedPrice q)

/-- One entry of `positions_by_underlying`. -/
structure UnderlyingRec where
  stock_count : ℚ
  stock_value : ℚ
  option_notional : ℚ
  option_actual_value : ℚ
  underlying_price : ℚ
deriving DecidableEq, Repr

/-- The fresh entry created on first encounter of a symbol (`app.py`
lines 217-224): zero accumulators, `underlying_price` set to the price the
creating iteration resolved. -/
def initRec (up : ℚ) : UnderlyingRec := ⟨0, 0, 0, 0, up⟩

/-- The accumulation step of `app.py` lines 226-271 for one position: a
stock position adds `pos.position` to `stock_count` and
`pos.position * underlying_price` (the iteration's own resolved price) to
`stock_value`; an option position adds `abs(delta) * 100 * pos.position`
to `option_notional` and `option_price * 100 * abs(pos.position)` to
`option_actual_value`. -/
def applyPos (q : PosInput) (r : UnderlyingRec) : UnderlyingRec :=
  match q.pos.contract.secType with
  | SecType.STK =>
      { r with
        stock_count := r.stock_count + q.pos.position
        stock_value := r.stock_value + q.pos.position * resolvedPrice q }
  | SecType.OPT =>
      { r with
        option_notional := r.option_notional + |deltaOf q| * 100 * q.pos.position
        option_actual_value :=
          r.option_actual_value + optPriceOf q * 100 * |q.pos.position| }

/-- `positions_by_underlying`: a symbol-keyed dictionary in insertion
order. -/
abbrev ExposureMap := List (String × UnderlyingRec)

def lookupRec (m : ExposureMap) (s : String) : Option UnderlyingRec :=
  (m.find? (fun p => p.1 == s)).map Prod.snd

def updateRec (m : ExposureMap) (s : String)
    (f : UnderlyingRec → UnderlyingRec) : ExposureMap :=
  m.map (fun p => if p.1 == s then (p.1, f p.2) else p)

/-- One iteration of the position loop: create the symbol's entry if
absent (with the iteration's resolved price), then accumulate this
position into it. -/
def processPosition (m : ExposureMap) (q : PosInput) : ExposureMap :=
  match lookupRec m (symOf q) with
  | some _ => updateRec m (symOf q) (applyPos q)
  | none => m ++ [(symOf q, applyPos q (initRec (resolvedPrice q)))]

/-- One aggregation pass over the position list. -/
def aggregate (l : List PosInput) : ExposureMap :=
  l.foldl processPosition []

/-- `total_notional` for one underlying (`app.py` lines 280-282):
`stock_count * underlying_price + option_notional * underlying_price`. -/
def notionalOf (r : UnderlyingRec) : ℚ :=
  r.stock_count * r.underlying_price + r.option_notional * r.underlying_price

/-- `total_npv`: the sum of the per-underlying notionals over the pass
(`app.py` line 295). -/
def totalNotionalPositionValue (l : List PosInput) : ℚ :=
  ((aggregate l).map (fun p => notionalOf p.2)).sum

/-- The metrics computation of `app.py` lines 307-308, as a total function
(first component `notional_leverage_ratio`, second
`standard_leverage_ratio`). -/
def leverageRatios (totalNpv nlv grossPosVal : ℚ) : ℚ × ℚ :=
  (if 0 < nlv then totalNpv / nlv else 0,
   if 0 < nlv then grossPosVal / nlv else 0)

/-! ### Per-position contribution functions and sum characterizations -/

/-- The contribution of one loop input to `stock_count` of symbol `s`. -/
def stockCountContrib (s : String) (q : PosInput) : ℚ :=
  if symOf q = s ∧ q.pos.contract.secType = SecType.STK then q.pos.position
  else 0

/-- The contribution of one loop input to `stock_value` of symbol `s`. -/
def stockValueContrib (s : String) (q : PosInput) : ℚ :=
  if symOf q = s ∧ q.pos.contract.secType = SecType.STK then
    q.pos.position * resolvedPrice q
  else 0

/-- The contribution of one loop input to `option_notional` of symbol
`s`. -/
def optionNotionalContrib (s : String) (q : PosInput) : ℚ :=
  if symOf q = s ∧ q.pos.contract.secType = SecType.OPT then
    |deltaOf q| * 100 * q.pos.position
  else 0

/-- The contribution of one loop input to `option_actual_value` of symbol
`s`. -/
def optionActualContrib (s : String) (q : PosInput) : ℚ :=
  if symOf q = s ∧ q.pos.contract.secType = SecType.OPT then
    optPriceOf q * 100 * |q.pos.position|
  else 0

def scSum (s : String) (l : List PosInput) : ℚ :=
  (l.map (stockCountContrib s)).sum

def svSum (s : String) (l : List PosInput) : ℚ :=
  (l.map (stockValueContrib s)).sum

def onSum (s : String) (l : List PosInput) : ℚ :=
  (l.map (optionNotionalContrib s)).sum

def ovSum (s : String) (l : List PosInput) : ℚ :=
  (l.map (optionActualContrib s)).sum

/-- The effect of one loop iteration on the single entry of symbol `s`. -/
def foldSym (s : String) (r : Option UnderlyingRec) (q : PosInput) :
    Option UnderlyingRec :=
  if symOf q = s then some (applyPos q (r.getD (initRec (resolvedPrice q))))
  else r

/-- Rewriting a loop input's declared contract multiplier, leaving every
other field unchanged. -/
def setMult (m : ℚ) (q : PosInput) : PosInput :=
  { q with pos :=
    { q.pos with contract := { q.pos.contract with multiplier := m } } }

/-! ### Concrete inputs used in counterexamples and witnesses -/

/-- A ticker with every field absent. -/
def tickerNone : Ticker := ⟨none, none, none, none, none⟩

/-- A long-2 call on `X`, strike 40, with no market data at all: the
underlying price resolves to the option placeholder `100`. -/
def optInX : PosInput :=
  ⟨⟨⟨"X", SecType.OPT, 40, OptRight.C, 100⟩, 2, 1⟩, tickerNone, tickerNone⟩

/-- 10 shares of `X`, average cost 50, with no market data at all: the
underlying price resolves to the average-cost fallback `50`. -/
def stkInX : PosInput :=
  ⟨⟨⟨"X", SecType.STK, 0, OptRight.C, 0⟩, 10, 50⟩, tickerNone, tickerNone⟩

/-- 10 shares of `X`, average cost 50, with a live market price of 50: the
underlying price resolves to `50` with no fallback. -/
def stkQuoted : PosInput :=
  ⟨⟨⟨"X", SecType.STK, 0, OptRight.C, 0⟩, 10, 50⟩,
   ⟨some 50, none, none, none, none⟩, tickerNone⟩

/-- A long-1 call on `X` whose own ticker reports the negative market
price `-5` (the data model allows any non-positive reading). -/
def optNegX : PosInput :=
  ⟨⟨⟨"X", SecType.OPT, 40, OptRight.C, 100⟩, 1, 0⟩, tickerNone,
   ⟨some (-5), none, none, none, none⟩⟩

lemma lookupRec_nil (s : String) : lookupRec [] s = none := rfl

lemma lookupRec_append (m m' : ExposureMap) (s : String) :
    lookupRec (m ++ m') s =
      match lookupRec m s with
      | some r => some r
      | none => lookupRec m' s := by
  induction m with
  | nil => simp [lookupRec]
  | cons p t ih =>
    by_cases h : p.1 = s
    · simp [lookupRec, List.find?, h]
    · have hb : (p.1 == s) = false := by simp [h]
      simpa [lookupRec, List.find?, hb] using ih

lemma lookupRec_cons (p : String × UnderlyingRec) (t : ExposureMap)
    (s : String) :
    lookupRec (p :: t) s = if p.1 = s then some p.2 else lookupRec t s := by
  by_cases h : p.1 = s
  · simp [lookupRec, List.find?, h]
  · have hb : (p.1 == s) = false := by simp [h]
    simp [lookupRec, List.find?, hb, h]

lemma updateRec_cons (p : String × UnderlyingRec) (t : ExposureMap)
    (s : String) (f : UnderlyingRec → UnderlyingRec) :
    updateRec (p :: t) s f =
      (if p.1 == s then (p.1, f p.2) else p) :: updateRec t s f := rfl

lemma lookupRec_updateRec_self (m : ExposureMap) (s : String)
    (f : UnderlyingRec → UnderlyingRec) :
    lookupRec (updateRec m s f) s = (lookupRec m s).map f := by
  induction m with
  | nil => simp [lookupRec, updateRec]
  | cons p t ih =>
    rw [updateRec_cons]
    by_cases h : p.1 = s
    · have hb : (p.1 == s) = true := by simp [h]
      rw [lookupRec_cons, lookupRec_cons]
      simp [hb, h]
    · have hb : (p.1 == s) = false := by simp [h]
      rw [lookupRec_cons, lookupRec_cons]
      simp [hb, h, ih]

lemma lookupRec_updateRec_ne (m : ExposureMap) (s s' : String)
    (f : UnderlyingRec → UnderlyingRec) (h : s' ≠ s) :
    lookupRec (updateRec m s' f) s = lookupRec m s := by
  induction m with
  | nil => simp [lookupRec, updateRec]
  | cons p t ih =>
    rw [updateRec_cons]
    by_cases hp : p.1 = s'
    · have hb : (p.1 == s') = true := by simp [hp]
      have hps : ¬p.1 = s := by rw [hp]; exact h
      rw [lookupRec_cons, lookupRec_cons]
      simp [hb, hp, hps, ih, h]
    · have hb : (p.1 == s') = false := by simp [hp]
      rw [lookupRec_cons, lookupRec_cons]
      simp [hb, ih]

/-- One loop iteration acts on the entry of each symbol exactly as
`foldSym` does. -/
lemma lookupRec_processPosition (m : ExposureMap) (q : PosInput)
    (s : String) :
    lookupRec (processPosition m q) s = foldSym s (lookupRec m s) q := by
  unfold processPosition foldSym
  by_cases hs : symOf q = s
  · subst hs
    cases h : lookupRec m (symOf q) with
    | some r => simp [h, lookupRec_updateRec_self, Option.getD]
    | none =>
      rw [lookupRec_append, h]
      simp [lookupRec, List.find?, Option.getD]
  · cases h : lookupRec m (symOf q) with
    | some r => simp [hs, lookupRec_updateRec_ne m s (symOf q) _ hs]
    | none =>
      rw [lookupRec_append]
      have hb : (symOf q == s) = false := by simp [hs]
      cases hms : lookupRec m s with
      | some r => simp [hms, hs]
      | none => simp [hms, hs, lookupRec, List.find?, hb]

/-- The whole pass acts on the entry of each symbol as the `foldSym`
fold. -/
lemma lookupRec_foldl (l : List PosInput) (m : ExposureMap) (s : String) :
    lookupRec (l.foldl processPosition m) s =
      l.foldl (foldSym s) (lookupRec m s) := by
  induction l generalizing m with
  | nil => rfl
  | cons q t ih =>
    simp only [List.foldl_cons]
    rw [ih, lookupRec_processPosition]

/-- One accumulation step adds exactly the four per-position contributions
and leaves the stored price unchanged. -/
lemma applyPos_eq (q : PosInput) (r : UnderlyingRec) (s : String)
    (h : symOf q = s) :
    applyPos q r =
      ⟨r.stock_count + stockCountContrib s q,
       r.stock_value + stockValueContrib s q,
       r.option_notional + optionNotionalContrib s q,
       r.option_actual_value + optionActualContrib s q,
       r.underlying_price⟩ := by
  cases hsec : q.pos.contract.secType <;>
    simp [applyPos, hsec, stockCountContrib, stockValueContrib,
      optionNotionalContrib, optionActualContrib, h]

lemma contribs_eq_zero (q : PosInput) (s : String) (h : symOf q ≠ s) :
    stockCountContrib s q = 0 ∧ stockValueContrib s q = 0 ∧
    optionNotionalContrib s q = 0 ∧ optionActualContrib s q = 0 := by
  simp [stockCountContrib, stockValueContrib, optionNotionalContrib,
    optionActualContrib, h]

/-- Folding a suffix of the pass from an existing entry adds the four
contribution sums and keeps the stored price. -/
lemma foldl_foldSym_some (s : String) (l : List PosInput) :
    ∀ r₀ : UnderlyingRec,
      l.foldl (foldSym s) (some r₀) =
        some ⟨r₀.stock_count + scSum s l, r₀.stock_value + svSum s l,
          r₀.option_notional + onSum s l,
          r₀.option_actual_value + ovSum s l, r₀.underlying_price⟩ := by
  induction l with
  | nil => intro r₀; simp [scSum, svSum, onSum, ovSum]
  | cons q t ih =>
    intro r₀
    by_cases h : symOf q = s
    · have e : foldSym s (some r₀) q = some (applyPos q r₀) := by
        simp [foldSym, h]
      simp only [List.foldl_cons, e]
      rw [ih (applyPos q r₀), applyPos_eq q r₀ s h]
      simp [scSum, svSum, onSum, ovSum, add_assoc]
    · have hz := contribs_eq_zero q s h
      have e : foldSym s (some r₀) q = some r₀ := by simp [foldSym, h]
      simp only [List.foldl_cons, e]
      rw [ih r₀]
      simp [scSum, svSum, onSum, ovSum, hz.1, hz.2.1, hz.2.2.1, hz.2.2.2]

/-- Folding the pass from an absent entry yields, when some input of the
symbol exists, the four contribution sums together with the price resolved
by the first such input. -/
lemma foldl_foldSym_none (s : String) (l : List PosInput) :
    l.foldl (foldSym s) none =
      (l.find? (fun q => symOf q == s)).map
        (fun q0 =>
          ⟨scSum s l, svSum s l, onSum s l, ovSum s l, resolvedPrice q0⟩) := by
  induction l with
  | nil => rfl
  | cons q t ih =>
    by_cases h : symOf q = s
    · have hb : (symOf q == s) = true := by simp [h]
      have e : foldSym s none q =
          some (applyPos q (initRec (resolvedPrice q))) := by
        simp [foldSym, h]
      simp only [List.foldl_cons, e, List.find?, hb]
      rw [foldl_foldSym_some s t (applyPos q (initRec (resolvedPrice q))),
        applyPos_eq q _ s h]
      simp [scSum, svSum, onSum, ovSum, initRec]
    · have hb : (symOf q == s) = false := by simp [h]
      have hz := contribs_eq_zero q s h
      have e : foldSym s none q = none := by simp [foldSym, h]
      simp only [List.foldl_cons, e, List.find?, hb]
      rw [ih]
      simp [scSum, svSum, onSum, ovSum, hz.1, hz.2.1, hz.2.2.1, hz.2.2.2]

/-- Characterization of one aggregation pass at each symbol: the entry
exists exactly when some input of the symbol exists; its accumulators are
the per-position contribution sums and its stored price is the one
resolved by the first input of the symbol. -/
lemma lookupRec_aggregate (l : List PosInput) (s : String) :
    lookupRec (aggregate l) s =
      (l.find? (fun q => symOf q == s)).map
        (fun q0 =>
          ⟨scSum s l, svSum s l, onSum s l, ovSum s l, resolvedPrice q0⟩) := by
  rw [aggregate, lookupRec_foldl, lookupRec_nil, foldl_foldSym_none]

/-- The accumulators of an aggregated entry are the contribution sums. -/
lemma aggregate_fields (l : List PosInput) (s : String) (r : UnderlyingRec)
    (hr : lookupRec (aggregate l) s = some r) :
    r.stock_count = scSum s l ∧ r.stock_value = svSum s l ∧
    r.option_notional = onSum s l ∧ r.option_actual_value = ovSum s l := by
  rw [lookupRec_aggregate] at hr
  cases hfind : l.find? (fun q => symOf q == s) with
  | none => rw [hfind] at hr; simp at hr
  | some q0 =>
    rw [hfind, Option.map_some'] at hr
    injection hr with hr
    subst hr
    exact ⟨rfl, rfl, rfl, rfl⟩

/-- The stored price of an aggregated entry is the price resolved by the
first input of the symbol. -/
lemma aggregate_price (l : List PosInput) (s : String) (r : UnderlyingRec)
    (hr : lookupRec (aggregate l) s = some r) :
    ∃ q0, l.find? (fun q => symOf q == s) = some q0 ∧ q0 ∈ l ∧
      symOf q0 = s ∧ r.underlying_price = resolvedPrice q0 := by
  rw [lookupRec_aggregate] at hr
  cases hfind : l.find? (fun q => symOf q == s) with
  | none => rw [hfind] at hr; simp at hr
  | some q0 =>
    rw [hfind, Option.map_some'] at hr
    injection hr with hr
    subst hr
    refine ⟨q0, rfl, List.mem_of_find?_eq_some hfind, ?_, rfl⟩
    have := List.find?_some hfind
    simpa using this

/-- When every stock input of the symbol resolves the same price `c`, the
`stock_value` sum is the `stock_count` sum times `c`. -/
lemma svSum_eq_scSum_mul (s : String) (c : ℚ) (l : List PosInput)
    (hall : ∀ q ∈ l, symOf q = s → q.pos.contract.secType = SecType.STK →
      resolvedPrice q = c) :
    svSum s l = scSum s l * c := by
  induction l with
  | nil => simp [svSum, scSum]
  | cons q t ih =>
    have ht : ∀ q' ∈ t, symOf q' = s →
        q'.pos.contract.secType = SecType.STK → resolvedPrice q' = c :=
      fun q' hq' => hall q' (List.mem_cons_of_mem q hq')
    by_cases hc : symOf q = s ∧ q.pos.contract.secType = SecType.STK
    · have hq := hall q (List.mem_cons_self q t) hc.1 hc.2
      simp only [svSum, scSum, List.map_cons, List.sum_cons,
        stockValueContrib, stockCountContrib, if_pos hc, hq]
      rw [show ((t.map (stockValueContrib s)).sum : ℚ) = svSum s t from rfl,
        show ((t.map (stockCountContrib s)).sum : ℚ) = scSum s t from rfl,
        ih ht]
      ring
    · simp only [svSum, scSum, List.map_cons, List.sum_cons,
        stockValueContrib, stockCountContrib, if_neg hc]
      rw [show ((t.map (stockValueContrib s)).sum : ℚ) = svSum s t from rfl,
        show ((t.map (stockCountContrib s)).sum : ℚ) = scSum s t from rfl,
        ih ht]
      ring

/-- A tier of the fallback chain is accepted only when strictly
positive. -/
lemma usable_pos {o : Option ℚ} (h : usable o = true) : 0 < o.getD 0 := by
  cases o with
  | none => simp [usable] at h
  | some x => simpa [usable] using h

/-! ### Concrete evaluations -/

lemma resolvedPrice_stkInX : resolvedPrice stkInX = 50 := by
  simp [resolvedPrice, resolveUnderlyingPrice, usable, midQuote, stkInX,
    tickerNone]

lemma resolvedPrice_stkQuoted : resolvedPrice stkQuoted = 50 := by
  simp [resolvedPrice, resolveUnderlyingPrice, usable, midQuote, stkQuoted]

lemma aggregate_optStk_eval :
    lookupRec (aggregate [optInX, stkInX]) "X" =
      some ⟨10, 500, 140, 0, 100⟩ := by
  rw [lookupRec_aggregate]
  simp [List.find?, symOf, optInX, stkInX, scSum, svSum, onSum, ovSum,
    stockCountContrib, stockValueContrib, optionNotionalContrib,
    optionActualContrib, deltaOf, resolveDelta, optPriceOf, resolvedPrice,
    resolveUnderlyingPrice, usable, midQuote, tickerNone]
  norm_num [abs_of_pos]

lemma aggregate_stkOpt_eval :
    lookupRec (aggregate [stkInX, optInX]) "X" =
      some ⟨10, 500, 140, 0, 50⟩ := by
  rw [lookupRec_aggregate]
  simp [List.find?, symOf, optInX, stkInX, scSum, svSum, onSum, ovSum,
    stockCountContrib, stockValueContrib, optionNotionalContrib,
    optionActualContrib, deltaOf, resolveDelta, optPriceOf, resolvedPrice,
    resolveUnderlyingPrice, usable, midQuote, tickerNone]
  norm_num [abs_of_pos]

lemma aggregate_stkQuoted_eval :
    lookupRec (aggregate [stkQuoted]) "X" = some ⟨10, 500, 0, 0, 50⟩ := by
  rw [lookupRec_aggregate]
  simp [List.find?, symOf, stkQuoted, scSum, svSum, onSum, ovSum,
    stockCountContrib, stockValueContrib, optionNotionalContrib,
    optionActualContrib, resolvedPrice, resolveUnderlyingPrice, usable,
    midQuote]
  norm_num

lemma aggregate_optX_eval :
    lookupRec (aggregate [optInX]) "X" = some ⟨0, 0, 140, 0, 100⟩ := by
  rw [lookupRec_aggregate]
  simp [List.find?, symOf, optInX, scSum, svSum, onSum, ovSum,
    stockCountContrib, stockValueContrib, optionNotionalContrib,
    optionActualContrib, deltaOf, resolveDelta, optPriceOf, resolvedPrice,
    resolveUnderlyingPrice, usable, midQuote, tickerNone]
  norm_num [abs_of_pos]

lemma aggregate_optNeg_eval :
    lookupRec (aggregate [optNegX]) "X" = some ⟨0, 0, 70, -500, 100⟩ := by
  rw [lookupRec_aggregate]
  simp [List.find?, symOf, optNegX, scSum, svSum, onSum, ovSum,
    stockCountContrib, stockValueContrib, optionNotionalContrib,
    optionActualContrib, deltaOf, resolveDelta, optPriceOf, resolvedPrice,
    resolveUnderlyingPrice, usable, midQuote, tickerNone]
  norm_num [abs_of_pos]

/-! ### Claims -/

/-- C1: the claim fails as stated.  In the pass `[optInX, stkInX]` the
option input is encountered first, so the stored `underlying_price` is its
placeholder `100`, while the later stock input accumulates `stock_value`
at its own average-cost fallback price `50`: the per-underlying notional
`(10 + 140) * 100 = 15000` is not `stock_value + option_notional *
underlying_price = 500 + 140 * 100 = 14500`. -/
theorem C1_counterexample :
    lookupRec (aggregate [optInX, stkInX]) "X" =
      some ⟨10, 500, 140, 0, 100⟩ ∧
    ¬ notionalOf ⟨10, 500, 140, 0, 100⟩ =
        (⟨10, 500, 140, 0, 100⟩ : UnderlyingRec).stock_value +
          (⟨10, 500, 140, 0, 100⟩ : UnderlyingRec).option_notional *
            (⟨10, 500, 140, 0, 100⟩ : UnderlyingRec).underlying_price := by
  refine ⟨aggregate_optStk_eval, ?_⟩
  simp only [notionalOf]
  norm_num

/-- C1 (amended): the per-underlying notional is `stock_count *
underlyingPrice + optionDeltaWeightedShares * underlyingPrice`; it equals
`stockMarketValue + optionDeltaWeightedShares * underlyingPrice` as the
claim states provided every equity input of the underlying resolved the
stored per-underlying price (which the code does not force when the
fallback tiers diverge).  The grand total is the sum of the per-underlying
notionals over all underlyings of the pass. -/
theorem C1_notional_decomposition (l : List PosInput) (s : String)
    (r : UnderlyingRec) (hr : lookupRec (aggregate l) s = some r)
    (hp : ∀ q ∈ l, symOf q = s → q.pos.contract.secType = SecType.STK →
      resolvedPrice q = r.underlying_price) :
    notionalOf r =
      r.stock_value + r.option_notional * r.underlying_price ∧
    totalNotionalPositionValue l =
      ((aggregate l).map (fun p => notionalOf p.2)).sum := by
  refine ⟨?_, rfl⟩
  have hf := aggregate_fields l s r hr
  have hsv : r.stock_value = r.stock_count * r.underlying_price := by
    rw [hf.2.1, hf.1, svSum_eq_scSum_mul s r.underlying_price l hp]
  rw [notionalOf, hsv]

/-- C1 witness: a single quoted equity position on `X`. -/
theorem C1_witness :
    notionalOf ⟨10, 500, 0, 0, 50⟩ =
      (⟨10, 500, 0, 0, 50⟩ : UnderlyingRec).stock_value +
        (⟨10, 500, 0, 0, 50⟩ : UnderlyingRec).option_notional *
          (⟨10, 500, 0, 0, 50⟩ : UnderlyingRec).underlying_price ∧
    totalNotionalPositionValue [stkQuoted] =
      ((aggregate [stkQuoted]).map (fun p => notionalOf p.2)).sum :=
  C1_notional_decomposition [stkQuoted] "X" ⟨10, 500, 0, 0, 50⟩
    aggregate_stkQuoted_eval
    (by
      intro q hq _ _
      rw [List.mem_singleton] at hq
      subst hq
      exact resolvedPrice_stkQuoted)

/-- C2: with positive net liquidation value the two leverage ratios are
the quotients `totalNotionalPositionValue / netLiquidationValue` and
`grossPositionValue / netLiquidationValue`; with non-positive net
liquidation value both are `0`.  The computation is a total function of
the inputs, so no division fault can occur. -/
theorem C2_leverage_zeroed (npv nlv gross : ℚ) :
    (0 < nlv → leverageRatios npv nlv gross = (npv / nlv, gross / nlv)) ∧
    (nlv ≤ 0 → leverageRatios npv nlv gross = (0, 0)) := by
  constructor
  · intro h
    simp [leverageRatios, h]
  · intro h
    simp [leverageRatios, not_lt.mpr h]

/-- C2 witness: the ratios at `nlv = 60000` and at `nlv = 0`. -/
theorem C2_witness :
    leverageRatios 12000 60000 30000 = (12000 / 60000, 30000 / 60000) ∧
    leverageRatios 12000 0 30000 = (0, 0) :=
  ⟨(C2_leverage_zeroed 12000 60000 30000).1 (by norm_num),
   (C2_leverage_zeroed 12000 0 30000).2 le_rfl⟩

/-- C3: the claim fails as stated.  `lastPrice` is not the first tier: the
chain tries the market-price field first, so a snapshot with
`marketPrice = 5` and `last = 7 > 0` resolves to `5`, not `7`. -/
theorem C3_counterexample :
    ¬ (∀ (t : Ticker) (pos : PositionRec) (x : ℚ),
        t.last = some x → 0 < x → (resolveUnderlyingPrice t pos).1 = x) := by
  intro h
  have h1 := h ⟨some 5, some 7, none, none, none⟩
    ⟨⟨"X", SecType.STK, 0, OptRight.C, 0⟩, 10, 50⟩ 7 rfl (by norm_num)
  have h2 : (resolveUnderlyingPrice ⟨some 5, some 7, none, none, none⟩
      ⟨⟨"X", SecType.STK, 0, OptRight.C, 0⟩, 10, 50⟩).1 = 5 := by
    simp [resolveUnderlyingPrice, usable]
  rw [h1] at h2
  norm_num at h2

/-- C3 (amended): `lastPrice` is the second tier: whenever the
market-price field is absent or non-positive and `lastPrice` is present
and strictly positive, the resolver returns exactly `lastPrice`,
regardless of the bid, the ask and the position. -/
theorem C3_last_price_second_tier (t : Ticker) (pos : PositionRec)
    (x : ℚ) (hmp : usable t.marketPrice = false) (hl : t.last = some x)
    (hx : 0 < x) :
    (resolveUnderlyingPrice t pos).1 = x := by
  unfold resolveUnderlyingPrice
  rw [hmp]
  simp [hl, usable, hx]

/-- C3 witness: a snapshot with no market price and `last = 7`. -/
theorem C3_witness :
    (resolveUnderlyingPrice ⟨none, some 7, some 1, some 2, none⟩
      ⟨⟨"X", SecType.STK, 0, OptRight.C, 0⟩, 10, 50⟩).1 = 7 :=
  C3_last_price_second_tier ⟨none, some 7, some 1, some 2, none⟩
    ⟨⟨"X", SecType.STK, 0, OptRight.C, 0⟩, 10, 50⟩ 7 rfl rfl (by norm_num)

/-- C4: the claim fails as stated.  The loop re-resolves the underlying
price at every position, and the last-resort tier depends on the
position's own kind: in `[optInX, stkInX]` the stored `underlying_price`
is the option placeholder `100`, while the later stock input of the same
symbol resolves (and contributes `stock_value` at) its average cost
`50`. -/
theorem C4_counterexample :
    ¬ (∀ (l : List PosInput) (s : String) (r : UnderlyingRec),
        lookupRec (aggregate l) s = some r →
        ∀ q ∈ l, symOf q = s → resolvedPrice q = r.underlying_price) := by
  intro h
  have h1 := h [optInX, stkInX] "X" ⟨10, 500, 140, 0, 100⟩
    aggregate_optStk_eval stkInX (by simp) rfl
  rw [resolvedPrice_stkInX] at h1
  norm_num at h1

/-- C4 (amended): the stored `underlyingPrice` is the one resolved by the
first encountered position of the symbol; it is shared by every position
of the symbol provided all of them resolve the same price (which the code
does not force when the fallback tiers diverge between an equity and an
option position). -/
theorem C4_shared_underlying_price (l : List PosInput) (s : String)
    (r : UnderlyingRec) (hr : lookupRec (aggregate l) s = some r)
    (hshare : ∀ q ∈ l, ∀ q' ∈ l, symOf q = s → symOf q' = s →
      resolvedPrice q = resolvedPrice q') :
    ∀ q ∈ l, symOf q = s → resolvedPrice q = r.underlying_price := by
  obtain ⟨q0, _, hq0mem, hq0sym, hprice⟩ := aggregate_price l s r hr
  intro q hq hqs
  rw [hprice]
  exact hshare q hq q0 hq0mem hqs hq0sym

/-- C4 witness: a single quoted equity position on `X`. -/
theorem C4_witness :
    resolvedPrice stkQuoted =
      (⟨10, 500, 0, 0, 50⟩ : UnderlyingRec).underlying_price :=
  C4_shared_underlying_price [stkQuoted] "X" ⟨10, 500, 0, 0, 50⟩
    aggregate_stkQuoted_eval
    (by
      intro q hq q' hq' _ _
      rw [List.mem_singleton] at hq hq'
      rw [hq, hq'])
    stkQuoted (List.mem_singleton_self stkQuoted) rfl

/-- C5: the claim fails as stated.  Permuting `[optInX, stkInX]` changes
the stored `underlying_price` of `X` from the option placeholder `100`
(option encountered first) to the equity average-cost fallback `50`
(equity encountered first), so the `UnderlyingExposure` values are not
identical under permutation. -/
theorem C5_counterexample :
    [optInX, stkInX].Perm [stkInX, optInX] ∧
    (lookupRec (aggregate [optInX, stkInX]) "X").map
        UnderlyingRec.underlying_price = some 100 ∧
    (lookupRec (aggregate [stkInX, optInX]) "X").map
        UnderlyingRec.underlying_price = some 50 := by
  refine ⟨List.Perm.swap stkInX optInX [], ?_, ?_⟩
  · rw [aggregate_optStk_eval]
    rfl
  · rw [aggregate_stkOpt_eval]
    rfl

/-- C5 (amended): the four accumulated fields (`stockShareCount`,
`stockMarketValue`, `optionDeltaWeightedShares`, `optionActualValue`) of
every underlying are invariant under permuting the input sequence; only
the stored `underlyingPrice` may change, because it is taken from the
first encountered position of the symbol. -/
theorem C5_accumulators_perm_invariant (l1 l2 : List PosInput)
    (hp : l1.Perm l2) (s : String) (r1 r2 : UnderlyingRec)
    (h1 : lookupRec (aggregate l1) s = some r1)
    (h2 : lookupRec (aggregate l2) s = some r2) :
    r1.stock_count = r2.stock_count ∧ r1.stock_value = r2.stock_value ∧
    r1.option_notional = r2.option_notional ∧
    r1.option_actual_value = r2.option_actual_value := by
  have hf1 := aggregate_fields l1 s r1 h1
  have hf2 := aggregate_fields l2 s r2 h2
  refine ⟨?_, ?_, ?_, ?_⟩
  · rw [hf1.1, hf2.1, scSum, scSum]
    exact (hp.map (stockCountContrib s)).sum_eq
  · rw [hf1.2.1, hf2.2.1, svSum, svSum]
    exact (hp.map (stockValueContrib s)).sum_eq
  · rw [hf1.2.2.1, hf2.2.2.1, onSum, onSum]
    exact (hp.map (optionNotionalContrib s)).sum_eq
  · rw [hf1.2.2.2, hf2.2.2.2, ovSum, ovSum]
    exact (hp.map (optionActualContrib s)).sum_eq

/-- C5 witness: the two orders of the two-position pass on `X` agree on
all four accumulated fields. -/
theorem C5_witness :
    (⟨10, 500, 140, 0, 100⟩ : UnderlyingRec).stock_count =
      (⟨10, 500, 140, 0, 50⟩ : UnderlyingRec).stock_count ∧
    (⟨10, 500, 140, 0, 100⟩ : UnderlyingRec).stock_value =
      (⟨10, 500, 140, 0, 50⟩ : UnderlyingRec).stock_value ∧
    (⟨10, 500, 140, 0, 100⟩ : UnderlyingRec).option_notional =
      (⟨10, 500, 140, 0, 50⟩ : UnderlyingRec).option_notional ∧
    (⟨10, 500, 140, 0, 100⟩ : UnderlyingRec).option_actual_value =
      (⟨10, 500, 140, 0, 50⟩ : UnderlyingRec).option_actual_value :=
  C5_accumulators_perm_invariant [optInX, stkInX] [stkInX, optInX]
    (List.Perm.swap stkInX optInX []) "X" ⟨10, 500, 140, 0, 100⟩
    ⟨10, 500, 140, 0, 50⟩ aggregate_optStk_eval aggregate_stkOpt_eval

/-- C6: the claim fails as stated.  The equity last-resort tier returns
`averageCost`, which is only constrained to be non-negative: an equity
position with `averageCost = 0` and an all-absent snapshot resolves to
`0`, which is not strictly positive. -/
theorem C6_counterexample :
    ¬ (∀ (t : Ticker) (pos : PositionRec), 0 ≤ pos.avgCost →
        0 < (resolveUnderlyingPrice t pos).1) := by
  intro h
  have h1 := h tickerNone ⟨⟨"X", SecType.STK, 0, OptRight.C, 0⟩, 10, 0⟩
    le_rfl
  have h2 : (resolveUnderlyingPrice tickerNone
      ⟨⟨"X", SecType.STK, 0, OptRight.C, 0⟩, 10, 0⟩).1 = 0 := by
    simp [resolveUnderlyingPrice, usable, midQuote, tickerNone]
  rw [h2] at h1
  exact lt_irrefl 0 h1

/-- C6 (amended): the resolver always returns a price (it is a total
function, never an "unresolvable" signal); given `averageCost ≥ 0` the
price is non-negative, and it can be `0` only in the equity average-cost
fallback with `averageCost = 0` — in every other case it is strictly
positive. -/
theorem C6_price_nonneg (t : Ticker) (pos : PositionRec)
    (h : 0 ≤ pos.avgCost) :
    0 ≤ (resolveUnderlyingPrice t pos).1 ∧
    ((resolveUnderlyingPrice t pos).1 = 0 →
      pos.contract.secType = SecType.STK ∧
      (resolveUnderlyingPrice t pos).2 = true ∧ pos.avgCost = 0) := by
  unfold resolveUnderlyingPrice
  split_ifs with h1 h2 h3 h4
  · have hp := usable_pos h1
    exact ⟨le_of_lt hp, fun hz => absurd hz (ne_of_gt hp)⟩
  · have hp := usable_pos h2
    exact ⟨le_of_lt hp, fun hz => absurd hz (ne_of_gt hp)⟩
  · have hp := usable_pos h3
    exact ⟨le_of_lt hp, fun hz => absurd hz (ne_of_gt hp)⟩
  · exact ⟨h, fun hz => ⟨h4, rfl, hz⟩⟩
  · exact ⟨by norm_num, fun hz => by norm_num at hz⟩

/-- C6 witness: an equity position with positive average cost and no
market data. -/
theorem C6_witness :
    0 ≤ (resolveUnderlyingPrice tickerNone
        ⟨⟨"X", SecType.STK, 0, OptRight.C, 0⟩, 10, 50⟩).1 ∧
    ((resolveUnderlyingPrice tickerNone
        ⟨⟨"X", SecType.STK, 0, OptRight.C, 0⟩, 10, 50⟩).1 = 0 →
      (⟨⟨"X", SecType.STK, 0, OptRight.C, 0⟩, 10,
          50⟩ : PositionRec).contract.secType = SecType.STK ∧
      (resolveUnderlyingPrice tickerNone
        ⟨⟨"X", SecType.STK, 0, OptRight.C, 0⟩, 10, 50⟩).2 = true ∧
      (⟨⟨"X", SecType.STK, 0, OptRight.C, 0⟩, 10,
          50⟩ : PositionRec).avgCost = 0) :=
  C6_price_nonneg tickerNone ⟨⟨"X", SecType.STK, 0, OptRight.C, 0⟩, 10, 50⟩
    (by norm_num)

/-- C7: the claim fails as stated.  The fallback values are right, but no
fallback-used boolean reaches the caller: the code only prints a warning,
and the pass output is identical between a run that used the equity
average-cost fallback (`stkInX`, empty snapshot, cost 50) and a run that
obtained the same price from a live quote (`stkQuoted`), so the caller
cannot observe that a fallback was used. -/
theorem C7_counterexample :
    aggregate [stkInX] = aggregate [stkQuoted] ∧
    (resolveUnderlyingPrice stkInX.undTicker stkInX.pos).2 = true ∧
    (resolveUnderlyingPrice stkQuoted.undTicker stkQuoted.pos).2 = false := by
  refine ⟨?_, ?_, ?_⟩
  · have e1 : aggregate [stkInX] = [("X", ⟨10, 500, 0, 0, 50⟩)] := by
      simp [aggregate, processPosition, lookupRec, List.find?, applyPos,
        initRec, symOf, resolvedPrice, resolveUnderlyingPrice, usable,
        midQuote, stkInX, tickerNone]
      norm_num
    have e2 : aggregate [stkQuoted] = [("X", ⟨10, 500, 0, 0, 50⟩)] := by
      simp [aggregate, processPosition, lookupRec, List.find?, applyPos,
        initRec, symOf, resolvedPrice, resolveUnderlyingPrice, usable,
        midQuote, stkQuoted]
      norm_num
    rw [e1, e2]
  · simp [resolveUnderlyingPrice, usable, midQuote, stkInX, tickerNone]
  · simp [resolveUnderlyingPrice, usable, midQuote, stkQuoted]

/-- C7 (amended): for a snapshot with no usable price field the resolver
returns the position's `averageCost` for an equity instrument and the
fixed placeholder `100` for an option instrument, totally (no exception
escapes); the fallback is signalled only by the warning emitted at
resolution time (the `Bool` of the result models that warning), not by
any flag on the output the caller receives. -/
theorem C7_fallback_values (t : Ticker) (pos : PositionRec)
    (h1 : usable t.marketPrice = false) (h2 : usable t.last = false)
    (h3 : usable (midQuote t) = false) :
    (pos.contract.secType = SecType.STK →
      resolveUnderlyingPrice t pos = (pos.avgCost, true)) ∧
    (pos.contract.secType = SecType.OPT →
      resolveUnderlyingPrice t pos = (100, true)) := by
  constructor <;> intro hsec <;>
    · unfold resolveUnderlyingPrice
      rw [h1, h2, h3]
      simp [hsec]

/-- C7 witness: an all-absent snapshot with an equity position. -/
theorem C7_witness :
    ((⟨⟨"X", SecType.STK, 0, OptRight.C, 0⟩, 10,
        50⟩ : PositionRec).contract.secType = SecType.STK →
      resolveUnderlyingPrice tickerNone
          ⟨⟨"X", SecType.STK, 0, OptRight.C, 0⟩, 10, 50⟩ =
        ((⟨⟨"X", SecType.STK, 0, OptRight.C, 0⟩, 10,
            50⟩ : PositionRec).avgCost, true)) ∧
    ((⟨⟨"X", SecType.STK, 0, OptRight.C, 0⟩, 10,
        50⟩ : PositionRec).contract.secType = SecType.OPT →
      resolveUnderlyingPrice tickerNone
          ⟨⟨"X", SecType.STK, 0, OptRight.C, 0⟩, 10, 50⟩ = (100, true)) :=
  C7_fallback_values tickerNone
    ⟨⟨"X", SecType.STK, 0, OptRight.C, 0⟩, 10, 50⟩ rfl rfl rfl

/-- C8: with no model-computed greeks the resolver returns, for a call,
delta `0.7` when the underlying price is above the strike and `0.3`
otherwise; for a put, delta `-0.7` when the underlying price is below the
strike and `-0.3` otherwise; and gamma `0.01` in every heuristic case. -/
theorem C8_moneyness_heuristic (t : Ticker) (strike sp : ℚ)
    (h : t.modelGreeks = none) :
    (sp > strike →
      resolveGreeks t OptRight.C strike sp = (7/10, 1/100)) ∧
    (¬ sp > strike →
      resolveGreeks t OptRight.C strike sp = (3/10, 1/100)) ∧
    (sp < strike →
      resolveGreeks t OptRight.P strike sp = (-(7/10), 1/100)) ∧
    (¬ sp < strike →
      resolveGreeks t OptRight.P strike sp = (-(3/10), 1/100)) := by
  refine ⟨fun hc => ?_, fun hc => ?_, fun hc => ?_, fun hc => ?_⟩ <;>
    simp [resolveGreeks, h, hc]

/-- C8 witness: an in-the-money call and an in-the-money put at
`strike = 40`, underlying price `50` and `30`. -/
theorem C8_witness :
    ((50 : ℚ) > 40 →
      resolveGreeks tickerNone OptRight.C 40 50 = (7/10, 1/100)) ∧
    (¬ (50 : ℚ) > 40 →
      resolveGreeks tickerNone OptRight.C 40 50 = (3/10, 1/100)) ∧
    ((50 : ℚ) < 40 →
      resolveGreeks tickerNone OptRight.P 40 50 = (-(7/10), 1/100)) ∧
    (¬ (50 : ℚ) < 40 →
      resolveGreeks tickerNone OptRight.P 40 50 = (-(3/10), 1/100)) :=
  C8_moneyness_heuristic tickerNone 40 50 rfl

/-- C9: the claim fails as stated.  The option's own price is the raw
market-price reading, used unguarded: a snapshot reporting the negative
price `-5` (the data model allows non-positive price fields) makes the
accumulated `option_actual_value` equal `-5 * 100 * 1 = -500 < 0`. -/
theorem C9_counterexample :
    (lookupRec (aggregate [optNegX]) "X").map
        UnderlyingRec.option_actual_value = some (-500) ∧
    ¬ (0 : ℚ) ≤ -500 := by
  refine ⟨?_, by norm_num⟩
  rw [aggregate_optNeg_eval]
  rfl

/-- C9 (amended): every option position contributes exactly
`optionPrice * 100 * |quantity|` to `optionActualValue` (the accumulator
is the sum of these contributions), and the accumulated value is
non-negative provided every option snapshot's market-price reading is
non-negative; a negative reading makes it negative. -/
theorem C9_option_actual_value (l : List PosInput) (s : String)
    (r : UnderlyingRec) (hr : lookupRec (aggregate l) s = some r)
    (hpos : ∀ q ∈ l, 0 ≤ optPriceOf q) :
    r.option_actual_value = ovSum s l ∧ 0 ≤ r.option_actual_value := by
  have hf := aggregate_fields l s r hr
  refine ⟨hf.2.2.2, ?_⟩
  rw [hf.2.2.2, ovSum]
  apply List.sum_nonneg
  intro x hx
  obtain ⟨q, hq, rfl⟩ := List.mem_map.mp hx
  unfold optionActualContrib
  split_ifs
  · exact mul_nonneg (mul_nonneg (hpos q hq) (by norm_num)) (abs_nonneg _)
  · exact le_rfl

/-- C9 witness: a single quoted equity pass (its option price readings
are vacuously non-negative). -/
theorem C9_witness :
    (⟨10, 500, 0, 0, 50⟩ : UnderlyingRec).option_actual_value =
      ovSum "X" [stkQuoted] ∧
    (0 : ℚ) ≤ (⟨10, 500, 0, 0, 50⟩ : UnderlyingRec).option_actual_value :=
  C9_option_actual_value [stkQuoted] "X" ⟨10, 500, 0, 0, 50⟩
    aggregate_stkQuoted_eval
    (by
      intro q hq
      rw [List.mem_singleton] at hq
      subst hq
      simp [optPriceOf, stkQuoted, tickerNone])

lemma processPosition_setMult (mm : ExposureMap) (m : ℚ) (q : PosInput) :
    processPosition mm (setMult m q) = processPosition mm q := rfl

/-- C10: the aggregation uses the constant `100` as the contract
multiplier: the pass output is invariant under rewriting every input's
declared `contractMultiplier`, and the two option accumulators are the
sums of `|delta| * 100 * quantity` and `optionPrice * 100 * |quantity|`
contributions. -/
theorem C10_fixed_multiplier (l : List PosInput) (m : ℚ) (s : String)
    (r : UnderlyingRec) (hr : lookupRec (aggregate l) s = some r) :
    aggregate (l.map (setMult m)) = aggregate l ∧
    r.option_notional = onSum s l ∧ r.option_actual_value = ovSum s l := by
  have hf := aggregate_fields l s r hr
  refine ⟨?_, hf.2.2.1, hf.2.2.2⟩
  unfold aggregate
  rw [List.foldl_map]
  have hfun : (fun (mm : ExposureMap) (q : PosInput) =>
      processPosition mm (setMult m q)) = processPosition := by
    funext mm q
    exact processPosition_setMult mm m q
  rw [hfun]

/-- C10 witness: the two-contract-multiplier rewrite of the single-option
pass on `X`. -/
theorem C10_witness :
    aggregate ([optInX].map (setMult 55)) = aggregate [optInX] ∧
    (⟨0, 0, 140, 0, 100⟩ : UnderlyingRec).option_notional =
      onSum "X" [optInX] ∧
    (⟨0, 0, 140, 0, 100⟩ : UnderlyingRec).option_actual_value =
      ovSum "X" [optInX] :=
  C10_fixed_multiplier [optInX] 55 "X" ⟨0, 0, 140, 0, 100⟩
    aggregate_optX_eval

end NotionalEngine
